import Mathlib

/-!
Verification of the streaming core of the `firebasedb` Go client
(`streaming.go`, `auth.go`, `reference.go`).

The development shallowly embeds:

* the producer goroutine of `Subscription.loop` (frame decoding, keep-alive
  filtering, `auth_revoked` renewal/reconnect handling) as a pure function
  `loop` from the list of lines read off the wire to the list of actions the
  goroutine performs (events sent on `fetchEvent`, `Renew` calls, transport
  close/open, the final send on `s.closing`);
* the dispatch `select` loop of `Subscription.loop` as a small-step
  transition relation `DStep` on states holding the not-yet-received channel
  messages, the `pending` buffer, the closed flag of the `events` channel and
  the list of events received by the consumer.

Go strings are modelled as `List Char`; the Go `error` type as
`Option (List Char)` (`none` = nil error, `some msg` = non-nil error built
with `errors.New msg`).
-/

namespace Firebasedb


/-- Go strings, modelled as their character lists. -/
abbrev Str := List Char

/-- Character list of a Lean string literal. -/
def strL (s : String) : Str := s.data

/-- The cutset of `strings.Trim(line, " \r\n")` in `Subscription.loop`. -/
def isCutChar (c : Char) : Bool := c == ' ' || c == '\r' || c == '\n'

/-- `strings.Trim(s, " \r\n")`: drop characters of the cutset from both ends. -/
def goTrim (s : Str) : Str :=
  ((s.dropWhile isCutChar).reverse.dropWhile isCutChar).reverse

/-- `strings.HasPrefix(s, p)`. -/
def startsWith (s p : Str) : Bool := p.isPrefixOf s

/-- `strings.TrimPrefix(s, p)`: remove `p` from the front of `s` when present. -/
def trimPfx (s p : Str) : Str := if p.isPrefixOf s then s.drop p.length else s

/-- The `Event` struct of `streaming.go` (`Type`, `Err`, `data`).  The Go zero
value of a field is `[]` for strings and `none` for errors. -/
structure Event where
  type : Str
  err : Option Str
  data : Str
deriving DecidableEq, Repr

/-- Error event sent when the first stored line lacks the `event:` mark
(`streaming.go`, line 135). -/
def errFirstLine : Event := ⟨[], some (strL "First line does not start with event:"), []⟩

/-- Error event sent when the second stored line lacks the `data:` mark
(`streaming.go`, line 139). -/
def errSecondLine : Event := ⟨[], some (strL "Second line does not start with data:"), []⟩

/-- Error event sent when a blank line arrives with `lineCount ≠ 2`
(`streaming.go`, line 170). -/
def errBadBody : Event := ⟨[], some (strL "Badly formated body"), []⟩

/-- Behaviour of the environment at one `auth_revoked` frame: the result of
`auth.Renew()` and, when renewal succeeds, of `Reference.openStream`.
`reopened newLines` is a successful renewal and reconnect, after which the
producer reads `newLines` from the new transport. -/
inductive ReconnectOutcome where
  | renewFail (e : Str)
  | reopenFail (e : Str)
  | reopened (newLines : List Str)
deriving DecidableEq, Repr

/-- One observable action of the producer goroutine of `Subscription.loop`. -/
inductive Action where
  /-- a send on the `fetchEvent` channel -/
  | emit (e : Event)
  /-- a call of `s.reference.auth.Renew()` -/
  | renewCall
  /-- the `s.reader.Close()` on the reconnect path -/
  | closeOld
  /-- the `s.reference.openStream()` call on the reconnect path -/
  | openNew
  /-- the assignment `s.LastKeepAlive = time.Now()` -/
  | updateKA
  /-- the final `s.closing <- true` -/
  | signalClosing
deriving DecidableEq, Repr

/-- Artificial renewal-error message used only when the supplied list of
`ReconnectOutcome`s is shorter than the run needs; every theorem below
supplies enough outcomes, so this value never shows up in their statements. -/
def errNoOutcome : Str := strL "authenticator model: outcome list exhausted"

/-- The `"keep-alive"` literal of `streaming.go`. -/
def kaStr : Str := strL "keep-alive"

/-- The `"auth_revoked"` literal of `streaming.go`. -/
def arStr : Str := strL "auth_revoked"

/-- Fuel-indexed embedding of the producer goroutine of `Subscription.loop`
(`streaming.go`, lines 121–181).  Arguments: `hasAuth` is
`s.reference.auth != nil`; `passKA` is `s.reference.passKeepAlive`; `fuel`
bounds the recursion (the wrapper `loop` always supplies enough); `lines` are
the `\n`-terminated lines still readable on the current transport (a read
error or end of input is the end of the list); `os` the pending
`ReconnectOutcome`s; `p0`, `p1` the two cells of `payload`; `lc` is
`lineCount`.  The result is the list of actions the goroutine performs. -/
def loopF (hasAuth passKA : Bool) : Nat → List Str → List ReconnectOutcome →
    Str → Str → Nat → List Action
  | 0, _, _, _, _, _ => []
  | _ + 1, [], _, _, _, _ => [.signalClosing]
  | f + 1, line :: rest, os, p0, p1, lc =>
    let l := goTrim line
    if l = [] then
      if lc = 2 then
        if startsWith p0 (strL "event:") = false then
          .emit errFirstLine :: loopF hasAuth passKA f rest os p0 p1 0
        else if startsWith p1 (strL "data:") = false then
          .emit errSecondLine :: loopF hasAuth passKA f rest os p0 p1 0
        else
          let ty := goTrim (trimPfx p0 (strL "event:"))
          let dt := goTrim (trimPfx p1 (strL "data:"))
          if ty = kaStr then
            .updateKA ::
              (if passKA then [.emit ⟨ty, none, dt⟩] else []) ++
                loopF hasAuth passKA f rest os p0 p1 0
          else if ty = arStr then
            if hasAuth then
              match os with
              | .renewFail e :: os' =>
                .renewCall :: .emit ⟨ty, some e, dt⟩ ::
                  loopF hasAuth passKA f rest os' p0 p1 0
              | .reopenFail e :: os' =>
                .renewCall :: .closeOld :: .openNew :: .emit ⟨ty, some e, dt⟩ ::
                  loopF hasAuth passKA f rest os' p0 p1 0
              | .reopened nl :: os' =>
                .renewCall :: .closeOld :: .openNew ::
                  loopF hasAuth passKA f nl os' p0 p1 0
              | [] =>
                .renewCall :: .emit ⟨ty, some errNoOutcome, dt⟩ ::
                  loopF hasAuth passKA f rest [] p0 p1 0
            else
              .emit ⟨ty, none, dt⟩ :: loopF hasAuth passKA f rest os p0 p1 0
          else
            .emit ⟨ty, none, dt⟩ :: loopF hasAuth passKA f rest os p0 p1 0
      else
        .emit errBadBody :: loopF hasAuth passKA f rest os p0 p1 0
    else
      if lc < 2 then
        loopF hasAuth passKA f rest os (if lc = 0 then l else p0)
          (if lc = 1 then l else p1) (lc + 1)
      else
        loopF hasAuth passKA f rest os p0 p1 lc

/-- Number of lines carried inside `reopened` outcomes. -/
def linesIn : List ReconnectOutcome → Nat
  | [] => 0
  | .renewFail _ :: os => linesIn os
  | .reopenFail _ :: os => linesIn os
  | .reopened nl :: os => nl.length + linesIn os

/-- Fuel sufficient for `loopF` to run to completion on `lines` and `os`. -/
def needFuel (lines : List Str) (os : List ReconnectOutcome) : Nat :=
  lines.length + linesIn os + os.length + 1

/-- The producer goroutine of `Subscription.loop`: `loopF` with enough fuel. -/
def loop (hasAuth passKA : Bool) (lines : List Str) (os : List ReconnectOutcome)
    (p0 p1 : Str) (lc : Nat) : List Action :=
  loopF hasAuth passKA (needFuel lines os) lines os p0 p1 lc

/-! Frame-level composition lemmas.  `renderFrame kind dt` is the wire form of
one well-formed frame: an `event:` line, a `data:` line, a blank line. -/

/-- Wire lines of a single well-formed frame. -/
def renderFrame (kind dt : Str) : List Str :=
  [strL "event:" ++ kind, strL "data:" ++ dt, []]

/-- Wire lines of a list of well-formed frames. -/
def renderFrames (fs : List (Str × Str)) : List Str :=
  (fs.map (fun f => renderFrame f.1 f.2)).flatten

/-- The event that a well-formed non-control frame decodes to. -/
def evOf (f : Str × Str) : Event := ⟨f.1, none, f.2⟩

/-- A frame whose kind and payload survive `strings.Trim` unchanged (no
leading/trailing space, carriage return or newline). -/
abbrev WFFrame (f : Str × Str) : Prop := goTrim f.1 = f.1 ∧ goTrim f.2 = f.2

/-- A frame that is not a control frame of the supervisor. -/
abbrev NonControl (f : Str × Str) : Prop := f.1 ≠ kaStr ∧ f.1 ≠ arStr

/-- The `Secret` authenticator of `auth.go`: a static database secret. -/
structure Secret where
  Token : Str

/-- `Secret.String` returns the static secret (`auth.go`, lines 19–21). -/
def Secret.String (s : Secret) : Str := s.Token

/-- `Secret.ParamName` (`auth.go`, lines 23–25). -/
def Secret.ParamName (_ : Secret) : Str := strL "auth"

/-- `Secret.Renew` is not allowed for a static secret and always returns an
error (`auth.go`, lines 27–30).  `some msg` models a non-nil Go error. -/
def Secret.Renew (_ : Secret) : Option Str :=
  some (strL "Can't renew a static token")

/-! The dispatch `select` loop (`streaming.go`, lines 183–202).

The loop repeatedly computes `events` (`nil` unless `len(pending) > 0`, in
which case it is `s.events` and `first` is `pending[0]`) and then selects
among: receiving on `fetchEvent`, receiving on `s.closing` (which runs
`close(s.events)` and a `break` that leaves only the `select`), and sending
`first` on `events`.  We model an always-ready consumer; a send that fires
after `close(s.events)` is the Go runtime panic `send on closed channel`,
recorded by the `crashed` flag. -/

/-- A message the dispatch loop can receive: an event from `fetchEvent`, or
the end-of-producer signal from `s.closing`. -/
inductive Msg where
  | ev (e : Event)
  | closing
deriving DecidableEq, Repr

/-- The channel communications of a producer trace, in order: only `emit` and
`signalClosing` actions are visible to the dispatch loop. -/
def msgsOf : List Action → List Msg
  | [] => []
  | .emit e :: tr => .ev e :: msgsOf tr
  | .renewCall :: tr => msgsOf tr
  | .closeOld :: tr => msgsOf tr
  | .openNew :: tr => msgsOf tr
  | .updateKA :: tr => msgsOf tr
  | .signalClosing :: tr => .closing :: msgsOf tr

/-- The events sent on `fetchEvent` in a producer trace, in order. -/
def emitsOf : List Action → List Event
  | [] => []
  | .emit e :: tr => e :: emitsOf tr
  | .renewCall :: tr => emitsOf tr
  | .closeOld :: tr => emitsOf tr
  | .openNew :: tr => emitsOf tr
  | .updateKA :: tr => emitsOf tr
  | .signalClosing :: tr => emitsOf tr

/-- The events of a message list, in order. -/
def evsOf : List Msg → List Event
  | [] => []
  | .ev e :: ms => e :: evsOf ms
  | .closing :: ms => evsOf ms

/-- State of the dispatch loop together with its environment: the channel
messages not yet received, the `pending` buffer, whether `close(s.events)`
has run, whether the goroutine has panicked, and the events received by the
consumer so far. -/
structure DState where
  input : List Msg
  pending : List Event
  closed : Bool
  crashed : Bool
  delivered : List Event
deriving DecidableEq, Repr

/-- One iteration of the dispatch `select` (`streaming.go`, lines 183–202),
one constructor per case that can fire:

* `recvEv`: `case event := <-fetchEvent:` appends to `pending`;
* `recvClosing`: `case <-s.closing:` runs `close(s.events)`; the `break`
  leaves only the `select`, so iteration continues (a second `close` would
  itself panic, hence `crashed := cl`);
* `deliver`: `case events <- first:` with `events` non-nil (that is,
  `len(pending) > 0`) and the channel still open delivers `pending[0]` and
  drops it from the buffer;
* `deliverClosed`: the same send case fires after `close(s.events)`: the Go
  runtime panics (`send on closed channel`). -/
inductive DStep : DState → DState → Prop where
  | recvEv (e : Event) (rest : List Msg) (pnd : List Event) (cl : Bool)
      (dl : List Event) :
      DStep ⟨.ev e :: rest, pnd, cl, false, dl⟩ ⟨rest, pnd ++ [e], cl, false, dl⟩
  | recvClosing (rest : List Msg) (pnd : List Event) (cl : Bool) (dl : List Event) :
      DStep ⟨.closing :: rest, pnd, cl, false, dl⟩ ⟨rest, pnd, true, cl, dl⟩
  | deliver (inp : List Msg) (e : Event) (rest : List Event) (dl : List Event) :
      DStep ⟨inp, e :: rest, false, false, dl⟩ ⟨inp, rest, false, false, dl ++ [e]⟩
  | deliverClosed (inp : List Msg) (e : Event) (rest : List Event) (dl : List Event) :
      DStep ⟨inp, e :: rest, true, false, dl⟩ ⟨inp, e :: rest, true, true, dl⟩

/-- Reachability of dispatch states. -/
def Reaches : DState → DState → Prop := Relation.ReflTransGen DStep

/-- The dispatch loop's starting state for a list of channel messages:
`pending` empty, channel open, nothing delivered. -/
def initState (ms : List Msg) : DState := ⟨ms, [], false, false, []⟩

/-- Conservation: delivered events, buffered events and events still to be
received always concatenate to the full emitted sequence. -/
def DInv (E : List Event) (s : DState) : Prop :=
  s.delivered ++ s.pending ++ evsOf s.input = E

/-- The end-of-producer signal is either still in flight or has been
processed. -/
def HasClosing (s : DState) : Prop := s.closed = true ∨ Msg.closing ∈ s.input

/-- Actions performed for one `auth_revoked` frame after the `Renew` call,
by outcome. -/
def authSegment : ReconnectOutcome → Str → List Action
  | .renewFail e, dt => [.emit ⟨arStr, some e, dt⟩]
  | .reopenFail e, dt => [.closeOld, .openNew, .emit ⟨arStr, some e, dt⟩]
  | .reopened _, _ => [.closeOld, .openNew]

/-- Lines the producer continues with after one `auth_revoked` frame. -/
def authCont : ReconnectOutcome → List Str → List Str
  | .renewFail _, rest => rest
  | .reopenFail _, rest => rest
  | .reopened nl, _ => nl

theorem needFuel_pos (lines : List Str) (os : List ReconnectOutcome) :
    0 < needFuel lines os := by
  simp [needFuel]

theorem linesIn_cons_le (o : ReconnectOutcome) (os : List ReconnectOutcome) :
    linesIn os ≤ linesIn (o :: os) := by
  cases o <;> simp [linesIn]

/-- Fuel irrelevance: any two sufficient fuels give the same run. -/
theorem loopF_congr (a k : Bool) :
    ∀ f₁ f₂ lines os p0 p1 lc, needFuel lines os ≤ f₁ → needFuel lines os ≤ f₂ →
      loopF a k f₁ lines os p0 p1 lc = loopF a k f₂ lines os p0 p1 lc := by
  intro f₁
  induction f₁ with
  | zero => intro f₂ lines os p0 p1 lc h₁ _; exact absurd h₁ (by unfold needFuel; omega)
  | succ n ih =>
    intro f₂ lines os p0 p1 lc h₁ h₂
    match f₂, lines with
    | 0, _ => exact absurd h₂ (by unfold needFuel; omega)
    | m + 1, [] => rfl
    | m + 1, line :: rest =>
      have hr : needFuel rest os ≤ n := by
        simp only [needFuel, List.length_cons] at h₁ ⊢; omega
      have hrm : needFuel rest os ≤ m := by
        simp only [needFuel, List.length_cons] at h₂ ⊢; omega
      have hak : ¬ (arStr = kaStr) := by decide
      have step : ∀ os' rest', needFuel rest' os' ≤ n → needFuel rest' os' ≤ m →
          loopF a k n rest' os' = loopF a k m rest' os' := by
        intro os' rest' hn hm
        funext q0 q1 ql
        exact (ih m rest' os' q0 q1 ql hn hm)
      simp only [loopF]
      by_cases hl : goTrim line = []
      · by_cases hlc : lc = 2
        · simp only [hl, hlc, if_true, if_pos rfl]
          by_cases hp0 : startsWith p0 (strL "event:") = false
          · simp [hp0, step os rest hr hrm]
          · simp only [hp0, if_false, Bool.not_eq_false] at *
            by_cases hp1 : startsWith p1 (strL "data:") = false
            · simp [hp0, hp1, step os rest hr hrm]
            · simp only [Bool.not_eq_false] at hp1
              by_cases hka : goTrim (trimPfx p0 (strL "event:")) = kaStr
              · simp [hp0, hp1, hka, step os rest hr hrm]
              · by_cases har : goTrim (trimPfx p0 (strL "event:")) = arStr
                · cases a with
                  | false => simp [hp0, hp1, hka, har, step os rest hr hrm]
                  | true =>
                    match os with
                    | [] =>
                      simp [hp0, hp1, hka, har, hak, step ([]) rest hr hrm]
                    | .renewFail e :: os' =>
                      have hr' : needFuel rest os' ≤ n := by
                        simp only [needFuel, linesIn, List.length_cons] at hr ⊢; omega
                      have hm' : needFuel rest os' ≤ m := by
                        simp only [needFuel, linesIn, List.length_cons] at hrm ⊢; omega
                      simp [hp0, hp1, hka, har, hak, step os' rest hr' hm']
                    | .reopenFail e :: os' =>
                      have hr' : needFuel rest os' ≤ n := by
                        simp only [needFuel, linesIn, List.length_cons] at hr ⊢; omega
                      have hm' : needFuel rest os' ≤ m := by
                        simp only [needFuel, linesIn, List.length_cons] at hrm ⊢; omega
                      simp [hp0, hp1, hka, har, hak, step os' rest hr' hm']
                    | .reopened nl :: os' =>
                      have hr' : needFuel nl os' ≤ n := by
                        simp only [needFuel, linesIn, List.length_cons] at h₁ ⊢; omega
                      have hm' : needFuel nl os' ≤ m := by
                        simp only [needFuel, linesIn, List.length_cons] at h₂ ⊢; omega
                      simp [hp0, hp1, hka, har, hak, step os' nl hr' hm']
                · simp [hp0, hp1, hka, har, step os rest hr hrm]
        · simp [hl, hlc, step os rest hr hrm]
      · simp [hl, step os rest hr hrm]

/-- A `loopF` run with sufficient fuel equals the canonical `loop` run. -/
theorem loopF_eq_loop (a k : Bool) (f : Nat) (lines : List Str)
    (os : List ReconnectOutcome) (p0 p1 : Str) (lc : Nat)
    (h : needFuel lines os ≤ f) :
    loopF a k f lines os p0 p1 lc = loop a k lines os p0 p1 lc :=
  loopF_congr a k f (needFuel lines os) lines os p0 p1 lc h le_rfl

theorem dropWhile_idem (p : Char → Bool) (l : Str) :
    (l.dropWhile p).dropWhile p = l.dropWhile p := by
  induction l with
  | nil => rfl
  | cons c t ih =>
    by_cases h : p c
    · simpa [List.dropWhile_cons, h] using ih
    · simp [List.dropWhile_cons, h]

/-- A trimmed string is invariant under the front trim alone. -/
theorem dropWhile_eq_self_of_goTrim (s : Str) (h : goTrim s = s) :
    s.dropWhile isCutChar = s := by
  have h1 : (s.dropWhile isCutChar).Sublist s := List.dropWhile_sublist _
  have h2 : (((s.dropWhile isCutChar).reverse.dropWhile isCutChar).reverse).length =
      s.length := by rw [← goTrim] at *; rw [h]
  have h3 : ((s.dropWhile isCutChar).reverse.dropWhile isCutChar).length ≤
      (s.dropWhile isCutChar).length := by
    simpa using
      (@List.dropWhile_sublist Char ((s.dropWhile isCutChar).reverse) isCutChar).length_le
  have h4 : (s.dropWhile isCutChar).length ≤ s.length := h1.length_le
  have h5 : (s.dropWhile isCutChar).length = s.length := by
    simp only [goTrim, List.length_reverse] at h2
    omega
  exact h1.eq_of_length h5

/-- A trimmed string is invariant under the back trim alone. -/
theorem dropWhile_reverse_eq_self_of_goTrim (s : Str) (h : goTrim s = s) :
    s.reverse.dropWhile isCutChar = s.reverse := by
  have hf := dropWhile_eq_self_of_goTrim s h
  have : goTrim s = (s.reverse.dropWhile isCutChar).reverse := by
    rw [goTrim, hf]
  rw [h] at this
  calc s.reverse.dropWhile isCutChar
      = ((s.reverse.dropWhile isCutChar).reverse).reverse := by simp
    _ = s.reverse := by rw [← this]

/-- Appending a trimmed string to a trimmed non-empty front keeps it trimmed. -/
theorem goTrim_append (pre k : Str) (hp : goTrim pre = pre) (hp0 : pre ≠ [])
    (hk : goTrim k = k) : goTrim (pre ++ k) = pre ++ k := by
  have hfront : (pre ++ k).dropWhile isCutChar = pre ++ k := by
    rw [List.dropWhile_append, dropWhile_eq_self_of_goTrim pre hp]
    simp [List.isEmpty_iff, hp0]
  rw [goTrim, hfront, List.reverse_append, List.dropWhile_append]
  by_cases hk0 : k = []
  · subst hk0
    simp [dropWhile_reverse_eq_self_of_goTrim pre hp]
  · rw [dropWhile_reverse_eq_self_of_goTrim k hk]
    simp [List.isEmpty_iff, hk0]

theorem goTrim_append_ne_nil (pre k : Str) (hp : goTrim pre = pre) (hp0 : pre ≠ [])
    (hk : goTrim k = k) : goTrim (pre ++ k) ≠ [] := by
  rw [goTrim_append pre k hp hp0 hk]
  simp [hp0]

theorem startsWith_append (pre k : Str) : startsWith (pre ++ k) pre = true := by
  rw [startsWith, List.isPrefixOf_iff_prefix]
  exact List.prefix_append pre k

theorem trimPfx_append (pre k : Str) : trimPfx (pre ++ k) pre = k := by
  rw [trimPfx, if_pos (by rw [List.isPrefixOf_iff_prefix]; exact List.prefix_append pre k)]
  exact List.drop_left pre k

/-! One-step unfolding lemmas for `loop`, mirroring the branches of the Go
line-processing loop. -/

theorem needFuel_cons (line : Str) (rest : List Str) (os : List ReconnectOutcome) :
    needFuel (line :: rest) os = needFuel rest os + 1 := by
  simp only [needFuel, List.length_cons]; omega

/-- Reading past the end of the input: the producer signals `s.closing`. -/
theorem loop_nil (a k : Bool) (os : List ReconnectOutcome) (p0 p1 : Str) (lc : Nat) :
    loop a k [] os p0 p1 lc = [.signalClosing] := by
  rw [loop, needFuel]
  simp [loopF]

/-- A non-blank line with `lineCount < 2` is stored into `payload`. -/
theorem loop_store (a k : Bool) (line : Str) (rest : List Str)
    (os : List ReconnectOutcome) (p0 p1 : Str) (lc : Nat)
    (hl : goTrim line ≠ []) (hlc : lc < 2) :
    loop a k (line :: rest) os p0 p1 lc =
      loop a k rest os (if lc = 0 then goTrim line else p0)
        (if lc = 1 then goTrim line else p1) (lc + 1) := by
  rw [loop, loop, needFuel_cons]
  simp [loopF, hl, hlc]

/-- Special case of `loop_store`: storing the first payload line. -/
theorem loop_store0 (a k : Bool) (line : Str) (rest : List Str)
    (os : List ReconnectOutcome) (p0 p1 : Str) (hl : goTrim line ≠ []) :
    loop a k (line :: rest) os p0 p1 0 =
      loop a k rest os (goTrim line) p1 1 := by
  rw [loop, loop, needFuel_cons]
  simp [loopF, hl]

/-- Special case of `loop_store`: storing the second payload line. -/
theorem loop_store1 (a k : Bool) (line : Str) (rest : List Str)
    (os : List ReconnectOutcome) (p0 p1 : Str) (hl : goTrim line ≠ []) :
    loop a k (line :: rest) os p0 p1 1 =
      loop a k rest os p0 (goTrim line) 2 := by
  rw [loop, loop, needFuel_cons]
  simp [loopF, hl]

/-- A non-blank line with `lineCount ≥ 2` is silently ignored. -/
theorem loop_skip (a k : Bool) (line : Str) (rest : List Str)
    (os : List ReconnectOutcome) (p0 p1 : Str) (lc : Nat)
    (hl : goTrim line ≠ []) (hlc : ¬ lc < 2) :
    loop a k (line :: rest) os p0 p1 lc = loop a k rest os p0 p1 lc := by
  rw [loop, loop, needFuel_cons]
  simp [loopF, hl, hlc]

/-- A blank line with `lineCount ≠ 2` yields the `Badly formated body` event. -/
theorem loop_badBody (a k : Bool) (line : Str) (rest : List Str)
    (os : List ReconnectOutcome) (p0 p1 : Str) (lc : Nat)
    (hl : goTrim line = []) (hlc : lc ≠ 2) :
    loop a k (line :: rest) os p0 p1 lc =
      .emit errBadBody :: loop a k rest os p0 p1 0 := by
  rw [loop, loop, needFuel_cons]
  simp [loopF, hl, hlc]

/-- A blank line with `lineCount = 2` but no `event:` mark on the first stored
line yields the corresponding error event. -/
theorem loop_err1 (a k : Bool) (line : Str) (rest : List Str)
    (os : List ReconnectOutcome) (p0 p1 : Str)
    (hl : goTrim line = []) (hp0 : startsWith p0 (strL "event:") = false) :
    loop a k (line :: rest) os p0 p1 2 =
      .emit errFirstLine :: loop a k rest os p0 p1 0 := by
  rw [loop, loop, needFuel_cons]
  simp [loopF, hl, hp0]

/-- A blank line with `lineCount = 2`, a good first mark but no `data:` mark on
the second stored line yields the corresponding error event. -/
theorem loop_err2 (a k : Bool) (line : Str) (rest : List Str)
    (os : List ReconnectOutcome) (p0 p1 : Str)
    (hl : goTrim line = []) (hp0 : startsWith p0 (strL "event:") = true)
    (hp1 : startsWith p1 (strL "data:") = false) :
    loop a k (line :: rest) os p0 p1 2 =
      .emit errSecondLine :: loop a k rest os p0 p1 0 := by
  rw [loop, loop, needFuel_cons]
  simp [loopF, hl, hp0, hp1]

/-- Parsing a well-marked frame whose type is neither `keep-alive` nor
`auth_revoked`: the event is sent on `fetchEvent` with a nil error. -/
theorem loop_parse_normal (a k : Bool) (line : Str) (rest : List Str)
    (os : List ReconnectOutcome) (p0 p1 : Str)
    (hl : goTrim line = []) (hp0 : startsWith p0 (strL "event:") = true)
    (hp1 : startsWith p1 (strL "data:") = true)
    (hka : goTrim (trimPfx p0 (strL "event:")) ≠ kaStr)
    (har : goTrim (trimPfx p0 (strL "event:")) ≠ arStr) :
    loop a k (line :: rest) os p0 p1 2 =
      .emit ⟨goTrim (trimPfx p0 (strL "event:")), none,
        goTrim (trimPfx p1 (strL "data:"))⟩ :: loop a k rest os p0 p1 0 := by
  rw [loop, loop, needFuel_cons]
  simp [loopF, hl, hp0, hp1, hka, har]

/-- Parsing a `keep-alive` frame: the keep-alive timestamp is written
unconditionally and the event is sent only when `passKeepAlive` is set. -/
theorem loop_parse_ka (a k : Bool) (line : Str) (rest : List Str)
    (os : List ReconnectOutcome) (p0 p1 : Str)
    (hl : goTrim line = []) (hp0 : startsWith p0 (strL "event:") = true)
    (hp1 : startsWith p1 (strL "data:") = true)
    (hka : goTrim (trimPfx p0 (strL "event:")) = kaStr) :
    loop a k (line :: rest) os p0 p1 2 =
      .updateKA ::
        (if k then [.emit ⟨kaStr, none, goTrim (trimPfx p1 (strL "data:"))⟩] else []) ++
          loop a k rest os p0 p1 0 := by
  rw [loop, loop, needFuel_cons]
  simp [loopF, hl, hp0, hp1, hka]

/-- Parsing an `auth_revoked` frame with no authenticator set: the event is
forwarded with a nil error (`var err error = nil` falls through). -/
theorem loop_parse_ar_noauth (k : Bool) (line : Str) (rest : List Str)
    (os : List ReconnectOutcome) (p0 p1 : Str)
    (hl : goTrim line = []) (hp0 : startsWith p0 (strL "event:") = true)
    (hp1 : startsWith p1 (strL "data:") = true)
    (har : goTrim (trimPfx p0 (strL "event:")) = arStr) :
    loop false k (line :: rest) os p0 p1 2 =
      .emit ⟨arStr, none, goTrim (trimPfx p1 (strL "data:"))⟩ ::
        loop false k rest os p0 p1 0 := by
  rw [loop, loop, needFuel_cons]
  have hak : ¬ (arStr = kaStr) := by decide
  simp [loopF, hl, hp0, hp1, har, hak]

/-- Parsing an `auth_revoked` frame when `Renew()` fails: `Renew` is called,
the event is forwarded carrying the renewal error, no reconnect happens. -/
theorem loop_parse_ar_renewFail (k : Bool) (line : Str) (rest : List Str)
    (e : Str) (os : List ReconnectOutcome) (p0 p1 : Str)
    (hl : goTrim line = []) (hp0 : startsWith p0 (strL "event:") = true)
    (hp1 : startsWith p1 (strL "data:") = true)
    (har : goTrim (trimPfx p0 (strL "event:")) = arStr) :
    loop true k (line :: rest) (.renewFail e :: os) p0 p1 2 =
      .renewCall :: .emit ⟨arStr, some e, goTrim (trimPfx p1 (strL "data:"))⟩ ::
        loop true k rest os p0 p1 0 := by
  rw [loop, loop]
  have hak : ¬ (arStr = kaStr) := by decide
  have hn : needFuel rest os ≤ needFuel (line :: rest) (.renewFail e :: os) - 1 := by
    simp only [needFuel, List.length_cons, linesIn]; omega
  rw [show needFuel (line :: rest) (.renewFail e :: os) =
    (needFuel (line :: rest) (.renewFail e :: os) - 1) + 1 by
      have := needFuel_pos (line :: rest) (.renewFail e :: os); omega]
  simp only [loopF, hl, hp0, hp1, har, hak]
  simp [hl, hp0, hp1, har, hak,
    loopF_congr true k _ (needFuel rest os) rest os p0 p1 0 hn le_rfl]

/-- Parsing an `auth_revoked` frame when `Renew()` succeeds but the re-open
fails: the old transport is closed, the open is attempted, and the event is
forwarded carrying the open error. -/
theorem loop_parse_ar_reopenFail (k : Bool) (line : Str) (rest : List Str)
    (e : Str) (os : List ReconnectOutcome) (p0 p1 : Str)
    (hl : goTrim line = []) (hp0 : startsWith p0 (strL "event:") = true)
    (hp1 : startsWith p1 (strL "data:") = true)
    (har : goTrim (trimPfx p0 (strL "event:")) = arStr) :
    loop true k (line :: rest) (.reopenFail e :: os) p0 p1 2 =
      .renewCall :: .closeOld :: .openNew ::
        .emit ⟨arStr, some e, goTrim (trimPfx p1 (strL "data:"))⟩ ::
          loop true k rest os p0 p1 0 := by
  rw [loop, loop]
  have hak : ¬ (arStr = kaStr) := by decide
  have hn : needFuel rest os ≤ needFuel (line :: rest) (.reopenFail e :: os) - 1 := by
    simp only [needFuel, List.length_cons, linesIn]; omega
  rw [show needFuel (line :: rest) (.reopenFail e :: os) =
    (needFuel (line :: rest) (.reopenFail e :: os) - 1) + 1 by
      have := needFuel_pos (line :: rest) (.reopenFail e :: os); omega]
  simp only [loopF, hl, hp0, hp1, har, hak]
  simp [hl, hp0, hp1, har, hak,
    loopF_congr true k _ (needFuel rest os) rest os p0 p1 0 hn le_rfl]

/-- Parsing an `auth_revoked` frame when `Renew()` and the re-open both
succeed: the old transport is closed, the new one opened, no event is
forwarded, and reading resumes on the new transport's lines. -/
theorem loop_parse_ar_reopened (k : Bool) (line : Str) (rest : List Str)
    (nl : List Str) (os : List ReconnectOutcome) (p0 p1 : Str)
    (hl : goTrim line = []) (hp0 : startsWith p0 (strL "event:") = true)
    (hp1 : startsWith p1 (strL "data:") = true)
    (har : goTrim (trimPfx p0 (strL "event:")) = arStr) :
    loop true k (line :: rest) (.reopened nl :: os) p0 p1 2 =
      .renewCall :: .closeOld :: .openNew :: loop true k nl os p0 p1 0 := by
  rw [loop, loop]
  have hak : ¬ (arStr = kaStr) := by decide
  have hn : needFuel nl os ≤ needFuel (line :: rest) (.reopened nl :: os) - 1 := by
    simp only [needFuel, List.length_cons, linesIn]; omega
  rw [show needFuel (line :: rest) (.reopened nl :: os) =
    (needFuel (line :: rest) (.reopened nl :: os) - 1) + 1 by
      have := needFuel_pos (line :: rest) (.reopened nl :: os); omega]
  simp only [loopF, hl, hp0, hp1, har, hak]
  simp [hl, hp0, hp1, har, hak,
    loopF_congr true k _ (needFuel nl os) nl os p0 p1 0 hn le_rfl]

/-- Parsing an `auth_revoked` frame when the outcome list is exhausted (model
artefact; the theorems below always supply enough outcomes). -/
theorem loop_parse_ar_exhausted (k : Bool) (line : Str) (rest : List Str)
    (p0 p1 : Str)
    (hl : goTrim line = []) (hp0 : startsWith p0 (strL "event:") = true)
    (hp1 : startsWith p1 (strL "data:") = true)
    (har : goTrim (trimPfx p0 (strL "event:")) = arStr) :
    loop true k (line :: rest) [] p0 p1 2 =
      .renewCall :: .emit ⟨arStr, some errNoOutcome, goTrim (trimPfx p1 (strL "data:"))⟩ ::
        loop true k rest [] p0 p1 0 := by
  rw [loop, loop, needFuel_cons]
  have hak : ¬ (arStr = kaStr) := by decide
  simp [loopF, hl, hp0, hp1, har, hak]

theorem goTrim_eventLine (kind : Str) (hk : goTrim kind = kind) :
    goTrim (strL "event:" ++ kind) = strL "event:" ++ kind :=
  goTrim_append _ kind (by decide) (by decide) hk

theorem goTrim_dataLine (dt : Str) (hd : goTrim dt = dt) :
    goTrim (strL "data:" ++ dt) = strL "data:" ++ dt :=
  goTrim_append _ dt (by decide) (by decide) hd

/-- Processing the two payload lines of a rendered frame stores them. -/
theorem loop_frame_store (a k : Bool) (kind dt : Str) (rest : List Str)
    (os : List ReconnectOutcome) (p0 p1 : Str)
    (hk : goTrim kind = kind) (hd : goTrim dt = dt) :
    loop a k (renderFrame kind dt ++ rest) os p0 p1 0 =
      loop a k ([] :: rest) os (strL "event:" ++ kind) (strL "data:" ++ dt) 2 := by
  have h1 := goTrim_eventLine kind hk
  have h2 := goTrim_dataLine dt hd
  have h1n : goTrim (strL "event:" ++ kind) ≠ [] :=
    goTrim_append_ne_nil _ kind (by decide) (by decide) hk
  have h2n : goTrim (strL "data:" ++ dt) ≠ [] :=
    goTrim_append_ne_nil _ dt (by decide) (by decide) hd
  show loop a k ((strL "event:" ++ kind) :: (strL "data:" ++ dt) :: [] :: rest)
    os p0 p1 0 = _
  rw [loop_store0 a k _ _ os p0 p1 h1n, h1]
  rw [loop_store1 a k _ _ os _ p1 h2n, h2]

/-- Decoding one well-formed non-control frame emits exactly its event. -/
theorem loop_frame (a k : Bool) (kind dt : Str) (rest : List Str)
    (os : List ReconnectOutcome) (p0 p1 : Str)
    (hk : goTrim kind = kind) (hd : goTrim dt = dt)
    (hka : kind ≠ kaStr) (har : kind ≠ arStr) :
    loop a k (renderFrame kind dt ++ rest) os p0 p1 0 =
      .emit ⟨kind, none, dt⟩ ::
        loop a k rest os (strL "event:" ++ kind) (strL "data:" ++ dt) 0 := by
  rw [loop_frame_store a k kind dt rest os p0 p1 hk hd]
  rw [loop_parse_normal a k [] rest os _ _ rfl
    (startsWith_append _ kind) (startsWith_append _ dt)
    (by rw [trimPfx_append, hk]; exact hka)
    (by rw [trimPfx_append, hk]; exact har)]
  rw [trimPfx_append, trimPfx_append, hk, hd]

/-- Decoding a `keep-alive` frame: unconditional timestamp write, event sent
only under `passKeepAlive`. -/
theorem loop_frame_ka (a k : Bool) (dt : Str) (rest : List Str)
    (os : List ReconnectOutcome) (p0 p1 : Str) (hd : goTrim dt = dt) :
    loop a k (renderFrame kaStr dt ++ rest) os p0 p1 0 =
      .updateKA :: (if k then [.emit ⟨kaStr, none, dt⟩] else []) ++
        loop a k rest os (strL "event:" ++ kaStr) (strL "data:" ++ dt) 0 := by
  rw [loop_frame_store a k kaStr dt rest os p0 p1 (by decide) hd]
  rw [loop_parse_ka a k [] rest os _ _ rfl
    (startsWith_append _ kaStr) (startsWith_append _ dt)
    (by rw [trimPfx_append]; decide)]
  rw [trimPfx_append, hd]

/-- Decoding an `auth_revoked` frame with no authenticator set. -/
theorem loop_frame_ar_noauth (k : Bool) (dt : Str) (rest : List Str)
    (os : List ReconnectOutcome) (p0 p1 : Str) (hd : goTrim dt = dt) :
    loop false k (renderFrame arStr dt ++ rest) os p0 p1 0 =
      .emit ⟨arStr, none, dt⟩ ::
        loop false k rest os (strL "event:" ++ arStr) (strL "data:" ++ dt) 0 := by
  rw [loop_frame_store false k arStr dt rest os p0 p1 (by decide) hd]
  rw [loop_parse_ar_noauth k [] rest os _ _ rfl
    (startsWith_append _ arStr) (startsWith_append _ dt)
    (by rw [trimPfx_append]; decide)]
  rw [trimPfx_append, hd]

/-- Decoding an `auth_revoked` frame when the renewal fails. -/
theorem loop_frame_ar_renewFail (k : Bool) (dt e : Str) (rest : List Str)
    (os : List ReconnectOutcome) (p0 p1 : Str) (hd : goTrim dt = dt) :
    loop true k (renderFrame arStr dt ++ rest) (.renewFail e :: os) p0 p1 0 =
      .renewCall :: .emit ⟨arStr, some e, dt⟩ ::
        loop true k rest os (strL "event:" ++ arStr) (strL "data:" ++ dt) 0 := by
  rw [loop_frame_store true k arStr dt rest _ p0 p1 (by decide) hd]
  rw [loop_parse_ar_renewFail k [] rest e os _ _ rfl
    (startsWith_append _ arStr) (startsWith_append _ dt)
    (by rw [trimPfx_append]; decide)]
  rw [trimPfx_append, hd]

/-- Decoding an `auth_revoked` frame when the renewal succeeds but the re-open
fails. -/
theorem loop_frame_ar_reopenFail (k : Bool) (dt e : Str) (rest : List Str)
    (os : List ReconnectOutcome) (p0 p1 : Str) (hd : goTrim dt = dt) :
    loop true k (renderFrame arStr dt ++ rest) (.reopenFail e :: os) p0 p1 0 =
      .renewCall :: .closeOld :: .openNew :: .emit ⟨arStr, some e, dt⟩ ::
        loop true k rest os (strL "event:" ++ arStr) (strL "data:" ++ dt) 0 := by
  rw [loop_frame_store true k arStr dt rest _ p0 p1 (by decide) hd]
  rw [loop_parse_ar_reopenFail k [] rest e os _ _ rfl
    (startsWith_append _ arStr) (startsWith_append _ dt)
    (by rw [trimPfx_append]; decide)]
  rw [trimPfx_append, hd]

/-- Decoding an `auth_revoked` frame when renewal and re-open both succeed:
close old transport, open the new one, continue on the new lines, and send
nothing for the frame. -/
theorem loop_frame_ar_reopened (k : Bool) (dt : Str) (rest nl : List Str)
    (os : List ReconnectOutcome) (p0 p1 : Str) (hd : goTrim dt = dt) :
    loop true k (renderFrame arStr dt ++ rest) (.reopened nl :: os) p0 p1 0 =
      .renewCall :: .closeOld :: .openNew ::
        loop true k nl os (strL "event:" ++ arStr) (strL "data:" ++ dt) 0 := by
  rw [loop_frame_store true k arStr dt rest _ p0 p1 (by decide) hd]
  rw [loop_parse_ar_reopened k [] rest nl os _ _ rfl
    (startsWith_append _ arStr) (startsWith_append _ dt)
    (by rw [trimPfx_append]; decide)]

/-- Decoding a list of well-formed non-control frames emits exactly their
events, in wire order, then continues. -/
theorem loop_frames (a k : Bool) (fs : List (Str × Str)) (rest : List Str)
    (os : List ReconnectOutcome) (p0 p1 : Str)
    (h : ∀ f ∈ fs, WFFrame f ∧ NonControl f) :
    ∃ q0 q1, loop a k (renderFrames fs ++ rest) os p0 p1 0 =
      (fs.map fun f => Action.emit (evOf f)) ++ loop a k rest os q0 q1 0 := by
  induction fs generalizing p0 p1 with
  | nil => exact ⟨p0, p1, by simp [renderFrames]⟩
  | cons f fs ih =>
    obtain ⟨⟨hk, hd⟩, ⟨hka, har⟩⟩ := h f (by simp)
    have hrest : ∀ g ∈ fs, WFFrame g ∧ NonControl g := fun g hg => h g (by simp [hg])
    obtain ⟨q0, q1, hq⟩ := ih (strL "event:" ++ f.1) (strL "data:" ++ f.2) hrest
    refine ⟨q0, q1, ?_⟩
    have : renderFrames (f :: fs) ++ rest = renderFrame f.1 f.2 ++ (renderFrames fs ++ rest) := by
      simp [renderFrames]
    rw [this, loop_frame a k f.1 f.2 _ os p0 p1 hk hd hka har, hq]
    simp [evOf]

/-! Global structure of the producer trace. -/

/-- Whatever the input, the producer performs `s.closing <- true` exactly once,
as its very last action (`streaming.go`, line 180). -/
theorem loop_closing (a k : Bool) :
    ∀ n lines os p0 p1 lc, needFuel lines os ≤ n →
      ∃ body, loop a k lines os p0 p1 lc = body ++ [Action.signalClosing] ∧
        Action.signalClosing ∉ body := by
  intro n
  induction n with
  | zero => intro lines os p0 p1 lc h; exact absurd h (by unfold needFuel; omega)
  | succ n ih =>
    intro lines os p0 p1 lc h
    cases lines with
    | nil => exact ⟨[], by rw [loop_nil]; rfl, by simp⟩
    | cons line rest =>
      have hb : needFuel rest os ≤ n := by rw [needFuel_cons] at h; omega
      by_cases hl : goTrim line = []
      · by_cases hlc : lc = 2
        · subst hlc
          by_cases hp0 : startsWith p0 (strL "event:") = false
          · obtain ⟨body, hbd, hnb⟩ := ih rest os p0 p1 0 hb
            exact ⟨.emit errFirstLine :: body,
              by rw [loop_err1 a k line rest os p0 p1 hl hp0, hbd]; rfl,
              by simp [hnb]⟩
          · have hp0t : startsWith p0 (strL "event:") = true := by
              revert hp0; cases startsWith p0 (strL "event:") <;> simp
            by_cases hp1 : startsWith p1 (strL "data:") = false
            · obtain ⟨body, hbd, hnb⟩ := ih rest os p0 p1 0 hb
              exact ⟨.emit errSecondLine :: body,
                by rw [loop_err2 a k line rest os p0 p1 hl hp0t hp1, hbd]; rfl,
                by simp [hnb]⟩
            · have hp1t : startsWith p1 (strL "data:") = true := by
                revert hp1; cases startsWith p1 (strL "data:") <;> simp
              by_cases hka : goTrim (trimPfx p0 (strL "event:")) = kaStr
              · obtain ⟨body, hbd, hnb⟩ := ih rest os p0 p1 0 hb
                refine ⟨.updateKA ::
                  (if k then [.emit ⟨kaStr, none, goTrim (trimPfx p1 (strL "data:"))⟩]
                    else []) ++ body, ?_, ?_⟩
                · rw [loop_parse_ka a k line rest os p0 p1 hl hp0t hp1t hka, hbd]
                  simp
                · cases k <;> simp [hnb]
              · by_cases har : goTrim (trimPfx p0 (strL "event:")) = arStr
                · cases a with
                  | false =>
                    obtain ⟨body, hbd, hnb⟩ := ih rest os p0 p1 0 hb
                    exact ⟨.emit ⟨arStr, none, goTrim (trimPfx p1 (strL "data:"))⟩ :: body,
                      by rw [loop_parse_ar_noauth k line rest os p0 p1 hl hp0t hp1t har,
                        hbd]; rfl,
                      by simp [hnb]⟩
                  | true =>
                    cases os with
                    | nil =>
                      obtain ⟨body, hbd, hnb⟩ := ih rest [] p0 p1 0 hb
                      exact ⟨.renewCall ::
                        .emit ⟨arStr, some errNoOutcome, goTrim (trimPfx p1 (strL "data:"))⟩ ::
                          body,
                        by rw [loop_parse_ar_exhausted k line rest p0 p1 hl hp0t hp1t har,
                          hbd]; rfl,
                        by simp [hnb]⟩
                    | cons o os' =>
                      cases o with
                      | renewFail e =>
                        have hb' : needFuel rest os' ≤ n := by
                          simp only [needFuel, List.length_cons, linesIn] at h ⊢; omega
                        obtain ⟨body, hbd, hnb⟩ := ih rest os' p0 p1 0 hb'
                        exact ⟨.renewCall ::
                          .emit ⟨arStr, some e, goTrim (trimPfx p1 (strL "data:"))⟩ :: body,
                          by rw [loop_parse_ar_renewFail k line rest e os' p0 p1
                            hl hp0t hp1t har, hbd]; rfl,
                          by simp [hnb]⟩
                      | reopenFail e =>
                        have hb' : needFuel rest os' ≤ n := by
                          simp only [needFuel, List.length_cons, linesIn] at h ⊢; omega
                        obtain ⟨body, hbd, hnb⟩ := ih rest os' p0 p1 0 hb'
                        exact ⟨.renewCall :: .closeOld :: .openNew ::
                          .emit ⟨arStr, some e, goTrim (trimPfx p1 (strL "data:"))⟩ :: body,
                          by rw [loop_parse_ar_reopenFail k line rest e os' p0 p1
                            hl hp0t hp1t har, hbd]; rfl,
                          by simp [hnb]⟩
                      | reopened nl =>
                        have hb' : needFuel nl os' ≤ n := by
                          simp only [needFuel, List.length_cons, linesIn] at h ⊢; omega
                        obtain ⟨body, hbd, hnb⟩ := ih nl os' p0 p1 0 hb'
                        exact ⟨.renewCall :: .closeOld :: .openNew :: body,
                          by rw [loop_parse_ar_reopened k line rest nl os' p0 p1
                            hl hp0t hp1t har, hbd]; rfl,
                          by simp [hnb]⟩
                · obtain ⟨body, hbd, hnb⟩ := ih rest os p0 p1 0 hb
                  exact ⟨.emit ⟨goTrim (trimPfx p0 (strL "event:")), none,
                      goTrim (trimPfx p1 (strL "data:"))⟩ :: body,
                    by rw [loop_parse_normal a k line rest os p0 p1 hl hp0t hp1t hka har,
                      hbd]; rfl,
                    by simp [hnb]⟩
        · obtain ⟨body, hbd, hnb⟩ := ih rest os p0 p1 0 hb
          exact ⟨.emit errBadBody :: body,
            by rw [loop_badBody a k line rest os p0 p1 lc hl hlc, hbd]; rfl,
            by simp [hnb]⟩
      · by_cases hlt : lc < 2
        · obtain ⟨body, hbd, hnb⟩ := ih rest os
            (if lc = 0 then goTrim line else p0) (if lc = 1 then goTrim line else p1)
            (lc + 1) hb
          exact ⟨body, by rw [loop_store a k line rest os p0 p1 lc hl hlt]; exact hbd, hnb⟩
        · obtain ⟨body, hbd, hnb⟩ := ih rest os p0 p1 lc hb
          exact ⟨body, by rw [loop_skip a k line rest os p0 p1 lc hl hlt]; exact hbd, hnb⟩

/-- When every renewal fails with the same error (as with `Secret.Renew`), the
producer never closes or re-opens a transport, and every `auth_revoked` event
it forwards carries that renewal error. -/
theorem loop_allRenewFail (k : Bool) (msg : Str) :
    ∀ n lines os p0 p1 lc, needFuel lines os ≤ n →
      (∀ o ∈ os, o = .renewFail msg) → lines.length ≤ os.length →
      ∀ x ∈ loop true k lines os p0 p1 lc,
        x ≠ .closeOld ∧ x ≠ .openNew ∧
          ∀ e, x = .emit e → e.type = arStr → e.err = some msg := by
  intro n
  induction n with
  | zero => intro lines os p0 p1 lc h; exact absurd h (by unfold needFuel; omega)
  | succ n ih =>
    intro lines os p0 p1 lc h hos hlen x hx
    cases lines with
    | nil =>
      rw [loop_nil] at hx
      simp only [List.mem_singleton] at hx
      subst hx
      exact ⟨by simp, by simp, by intro e he; simp at he⟩
    | cons line rest =>
      have hb : needFuel rest os ≤ n := by rw [needFuel_cons] at h; omega
      have hlen' : rest.length ≤ os.length := by
        simp only [List.length_cons] at hlen; omega
      by_cases hl : goTrim line = []
      · by_cases hlc : lc = 2
        · subst hlc
          by_cases hp0 : startsWith p0 (strL "event:") = false
          · rw [loop_err1 true k line rest os p0 p1 hl hp0] at hx
            rcases List.mem_cons.mp hx with rfl | hx
            · exact ⟨by simp, by simp, by
                intro e he hty
                injection he with h'
                subst h'
                exact absurd hty (by decide)⟩
            · exact ih rest os p0 p1 0 hb hos hlen' x hx
          · have hp0t : startsWith p0 (strL "event:") = true := by
              revert hp0; cases startsWith p0 (strL "event:") <;> simp
            by_cases hp1 : startsWith p1 (strL "data:") = false
            · rw [loop_err2 true k line rest os p0 p1 hl hp0t hp1] at hx
              rcases List.mem_cons.mp hx with rfl | hx
              · exact ⟨by simp, by simp, by
                  intro e he hty
                  injection he with h'
                  subst h'
                  exact absurd hty (by decide)⟩
              · exact ih rest os p0 p1 0 hb hos hlen' x hx
            · have hp1t : startsWith p1 (strL "data:") = true := by
                revert hp1; cases startsWith p1 (strL "data:") <;> simp
              by_cases hka : goTrim (trimPfx p0 (strL "event:")) = kaStr
              · rw [loop_parse_ka true k line rest os p0 p1 hl hp0t hp1t hka] at hx
                rcases List.mem_cons.mp hx with rfl | hx
                · exact ⟨by simp, by simp, by intro e he; simp at he⟩
                · rcases List.mem_append.mp hx with hx | hx
                  · cases k with
                    | false => simp at hx
                    | true =>
                      simp only [if_true, List.mem_singleton] at hx
                      subst hx
                      exact ⟨by simp, by simp, by
                        intro e he hty
                        injection he with h'
                        subst h'
                        exact absurd hty (show ¬ kaStr = arStr by decide)⟩
                  · exact ih rest os p0 p1 0 hb hos hlen' x hx
              · by_cases har : goTrim (trimPfx p0 (strL "event:")) = arStr
                · cases os with
                  | nil => simp at hlen
                  | cons o os' =>
                    have ho : o = .renewFail msg := hos o (by simp)
                    subst ho
                    have hos' : ∀ o ∈ os', o = ReconnectOutcome.renewFail msg :=
                      fun o hm => hos o (by simp [hm])
                    have hb' : needFuel rest os' ≤ n := by
                      simp only [needFuel, List.length_cons, linesIn] at h ⊢; omega
                    have hlen'' : rest.length ≤ os'.length := by
                      simp only [List.length_cons] at hlen; omega
                    rw [loop_parse_ar_renewFail k line rest msg os' p0 p1
                      hl hp0t hp1t har] at hx
                    rcases List.mem_cons.mp hx with rfl | hx
                    · exact ⟨by simp, by simp, by intro e he; simp at he⟩
                    · rcases List.mem_cons.mp hx with rfl | hx
                      · exact ⟨by simp, by simp, by
                          intro e he _
                          injection he with h'
                          subst h'
                          rfl⟩
                      · exact ih rest os' p0 p1 0 hb' hos' hlen'' x hx
                · rw [loop_parse_normal true k line rest os p0 p1 hl hp0t hp1t hka har] at hx
                  rcases List.mem_cons.mp hx with rfl | hx
                  · exact ⟨by simp, by simp, by
                      intro e he hty
                      injection he with h'
                      subst h'
                      exact absurd hty har⟩
                  · exact ih rest os p0 p1 0 hb hos hlen' x hx
        · rw [loop_badBody true k line rest os p0 p1 lc hl hlc] at hx
          rcases List.mem_cons.mp hx with rfl | hx
          · exact ⟨by simp, by simp, by
              intro e he hty
              injection he with h'
              subst h'
              exact absurd hty (by decide)⟩
          · exact ih rest os p0 p1 0 hb hos hlen' x hx
      · by_cases hlt : lc < 2
        · rw [loop_store true k line rest os p0 p1 lc hl hlt] at hx
          exact ih rest os _ _ (lc + 1) hb hos hlen' x hx
        · rw [loop_skip true k line rest os p0 p1 lc hl hlt] at hx
          exact ih rest os p0 p1 lc hb hos hlen' x hx

theorem evsOf_msgsOf (tr : List Action) : evsOf (msgsOf tr) = emitsOf tr := by
  induction tr with
  | nil => rfl
  | cons x tr ih => cases x <;> simp [msgsOf, emitsOf, evsOf, ih]

theorem msgsOf_append (a b : List Action) :
    msgsOf (a ++ b) = msgsOf a ++ msgsOf b := by
  induction a with
  | nil => rfl
  | cons x a ih => cases x <;> simp [msgsOf, ih]

theorem emitsOf_append (a b : List Action) :
    emitsOf (a ++ b) = emitsOf a ++ emitsOf b := by
  induction a with
  | nil => rfl
  | cons x a ih => cases x <;> simp [emitsOf, ih]

theorem msgsOf_map_emit (l : List Event) :
    msgsOf (l.map Action.emit) = l.map Msg.ev := by
  induction l with
  | nil => rfl
  | cons e l ih => simp [msgsOf, ih]

theorem emitsOf_map_emit (l : List Event) :
    emitsOf (l.map Action.emit) = l := by
  induction l with
  | nil => rfl
  | cons e l ih => simp [emitsOf, ih]

theorem DStep_inv {E : List Event} {s s' : DState} (h : DStep s s')
    (hs : DInv E s) : DInv E s' := by
  cases h with
  | recvEv e rest pnd cl dl =>
    simp only [DInv, evsOf] at hs ⊢
    simpa [List.append_assoc] using hs
  | recvClosing rest pnd cl dl =>
    simp only [DInv, evsOf] at hs ⊢
    exact hs
  | deliver inp e rest dl =>
    simp only [DInv, evsOf] at hs ⊢
    simpa [List.append_assoc] using hs
  | deliverClosed inp e rest dl =>
    exact hs

theorem Reaches_inv {E : List Event} {s s' : DState} (h : Reaches s s')
    (hs : DInv E s) : DInv E s' := by
  induction h with
  | refl => exact hs
  | tail _ hstep ih => exact DStep_inv hstep ih

/-- In every reachable dispatch state the consumer has received a prefix of
the emitted event sequence: order preserved, nothing duplicated. -/
theorem delivered_prefix {E : List Event} {s0 s : DState} (h : Reaches s0 s)
    (hinv : DInv E s0) : s.delivered <+: E :=
  ⟨s.pending ++ evsOf s.input, by
    rw [← List.append_assoc]; exact Reaches_inv h hinv⟩

/-- Once `close(s.events)` has run, it stays run and nothing more is ever
delivered to the consumer. -/
theorem DStep_closed {s s' : DState} (h : DStep s s') (hc : s.closed = true) :
    s'.closed = true ∧ s'.delivered = s.delivered := by
  cases h with
  | recvEv e rest pnd cl dl => exact ⟨hc, rfl⟩
  | recvClosing rest pnd cl dl => exact ⟨rfl, rfl⟩
  | deliver inp e rest dl => exact absurd hc (by simp)
  | deliverClosed inp e rest dl => exact ⟨rfl, rfl⟩

theorem Reaches_closed_frozen {s s' : DState} (h : Reaches s s')
    (hc : s.closed = true) : s'.closed = true ∧ s'.delivered = s.delivered := by
  induction h with
  | refl => exact ⟨hc, rfl⟩
  | tail _ hstep ih =>
    obtain ⟨h1, h2⟩ := ih
    obtain ⟨g1, g2⟩ := DStep_closed hstep h1
    exact ⟨g1, g2.trans h2⟩

/-- A crash (panic) can only happen with the events channel already closed. -/
theorem DStep_crashed_closed {s s' : DState} (h : DStep s s')
    (hc : s'.crashed = true) : s'.closed = true := by
  cases h with
  | recvEv e rest pnd cl dl => exact absurd hc (by simp)
  | recvClosing rest pnd cl dl => rfl
  | deliver inp e rest dl => exact absurd hc (by simp)
  | deliverClosed inp e rest dl => rfl

theorem DStep_hasClosing {s s' : DState} (h : DStep s s') (hj : HasClosing s) :
    HasClosing s' := by
  cases h with
  | recvEv e rest pnd cl dl =>
    rcases hj with hj | hj
    · exact Or.inl hj
    · simp only [List.mem_cons] at hj
      rcases hj with hj | hj
      · exact absurd hj (by simp)
      · exact Or.inr hj
  | recvClosing rest pnd cl dl => exact Or.inl rfl
  | deliver inp e rest dl => exact hj
  | deliverClosed inp e rest dl => exact hj

theorem Reaches_hasClosing {s s' : DState} (h : Reaches s s') (hj : HasClosing s) :
    HasClosing s' := by
  induction h with
  | refl => exact hj
  | tail _ hstep ih => exact DStep_hasClosing hstep ih

/-- A non-panicked dispatch state from which no step is possible has processed
the end-of-producer signal: the events channel is closed. -/
theorem terminal_closed (s : DState) (hj : HasClosing s) (hcr : s.crashed = false)
    (hterm : ∀ s', ¬ DStep s s') : s.closed = true := by
  obtain ⟨inp, pnd, cl, cr, dl⟩ := s
  simp only at hcr hj ⊢
  subst hcr
  by_contra hcl
  simp only [Bool.not_eq_true] at hcl
  subst hcl
  rcases hj with hj | hj
  · exact absurd hj (by simp)
  · cases inp with
    | nil => exact absurd hj (by simp)
    | cons m rest =>
      cases m with
      | ev e => exact hterm _ (DStep.recvEv e rest pnd false dl)
      | closing => exact hterm _ (DStep.recvClosing rest pnd false dl)

/-- A reachable panicked state has the events channel closed (panics only
arise from the send-after-close). -/
theorem reachable_crashed_closed {ms : List Msg} {s : DState}
    (h : Reaches (initState ms) s) (hc : s.crashed = true) : s.closed = true := by
  rcases Relation.ReflTransGen.cases_tail h with heq | ⟨b, _, hstep⟩
  · rw [heq] at hc; exact absurd hc (by simp [initState])
  · exact DStep_crashed_closed hstep hc

/-- A cooperative schedule that delivers every event: receive one event,
deliver it, repeat, and only then process the end-of-producer signal. -/
theorem runAll (E : List Event) (dl : List Event) :
    Reaches ⟨E.map Msg.ev ++ [Msg.closing], [], false, false, dl⟩
      ⟨[], [], true, false, dl ++ E⟩ := by
  induction E generalizing dl with
  | nil =>
    have h := Relation.ReflTransGen.single
      (DStep.recvClosing ([]) ([]) false dl)
    simpa using h
  | cons e E ih =>
    refine Relation.ReflTransGen.head (DStep.recvEv e _ [] false dl) ?_
    refine Relation.ReflTransGen.head (DStep.deliver _ e [] dl) ?_
    have h := ih (dl ++ [e])
    simpa [List.append_assoc] using h

theorem evsOf_append (a b : List Msg) : evsOf (a ++ b) = evsOf a ++ evsOf b := by
  induction a with
  | nil => rfl
  | cons m a ih => cases m <;> simp [evsOf, ih]

theorem evsOf_map_ev (l : List Event) : evsOf (l.map Msg.ev) = l := by
  induction l with
  | nil => rfl
  | cons e l ih => simp [evsOf, ih]

/-- The complete producer trace for a stream of well-formed non-control
frames: their events in wire order, then the closing signal. -/
theorem loop_frames_closed (a k : Bool) (fs : List (Str × Str))
    (h : ∀ f ∈ fs, WFFrame f ∧ NonControl f) (p0 p1 : Str) :
    loop a k (renderFrames fs) [] p0 p1 0 =
      (fs.map fun f => Action.emit (evOf f)) ++ [Action.signalClosing] := by
  obtain ⟨q0, q1, hq⟩ := loop_frames a k fs [] [] p0 p1 h
  rw [List.append_nil] at hq
  rw [hq, loop_nil]

/-- Channel messages of a full well-formed non-control stream. -/
theorem msgsOf_frames (a k : Bool) (fs : List (Str × Str))
    (h : ∀ f ∈ fs, WFFrame f ∧ NonControl f) (p0 p1 : Str) :
    msgsOf (loop a k (renderFrames fs) [] p0 p1 0) =
      (fs.map evOf).map Msg.ev ++ [Msg.closing] := by
  rw [loop_frames_closed a k fs h p0 p1, msgsOf_append]
  have : (fs.map fun f => Action.emit (evOf f)) = (fs.map evOf).map Action.emit := by
    rw [List.map_map]; rfl
  rw [this, msgsOf_map_emit]
  rfl

/-! Claim theorems. -/

/-- C1, counterexample.  For the one-frame non-control stream
`event:put / data:1`, there is an execution of the dispatch loop in which the
`select` takes the `<-s.closing` case (the producer has finished) while the
decoded event is still in `pending`: the events channel is closed with the
event undelivered, and no continuation ever delivers it.  The consumer
observes 0 events instead of exactly 1, refuting the claim as stated. -/
theorem c1_counterexample :
    ∃ s, Reaches (initState (msgsOf (loop false false
        (renderFrames [(strL "put", strL "1")]) [] [] [] 0))) s ∧
      s.closed = true ∧ s.delivered = [] ∧
      ∀ t, Reaches s t → t.delivered = [] := by
  have hmsgs : msgsOf (loop false false
      (renderFrames [(strL "put", strL "1")]) [] [] [] 0) =
      [Msg.ev ⟨strL "put", none, strL "1"⟩, Msg.closing] := by decide
  refine ⟨⟨[], [⟨strL "put", none, strL "1"⟩], true, false, []⟩, ?_, rfl, rfl, ?_⟩
  · rw [initState, hmsgs]
    exact Relation.ReflTransGen.head (DStep.recvEv _ _ [] false [])
      (Relation.ReflTransGen.single (DStep.recvClosing [] _ false []))
  · intro t ht
    exact (Reaches_closed_frozen ht rfl).2

/-- C1 (amended).  For every well-formed stream of N non-control frames, the
consumer observes, in every execution, a prefix of the N events in wire order
(order preserved, nothing duplicated, nothing out of order), and there is an
execution (deliver each buffered event before taking the closing signal) in
which the consumer observes exactly the N events.  Exactly-N delivery in all
executions fails: events still buffered when the `select` takes `<-s.closing`
are dropped (see the counterexample). -/
theorem c1_delivery (a k : Bool) (fs : List (Str × Str))
    (h : ∀ f ∈ fs, WFFrame f ∧ NonControl f) :
    (∀ s, Reaches (initState (msgsOf (loop a k (renderFrames fs) [] [] [] 0))) s →
      s.delivered <+: fs.map evOf) ∧
    (∃ s, Reaches (initState (msgsOf (loop a k (renderFrames fs) [] [] [] 0))) s ∧
      s.delivered = fs.map evOf ∧ s.closed = true) := by
  rw [msgsOf_frames a k fs h [] []]
  constructor
  · intro s hs
    refine delivered_prefix hs ?_
    show [] ++ [] ++ evsOf ((fs.map evOf).map Msg.ev ++ [Msg.closing]) = fs.map evOf
    rw [evsOf_append, evsOf_map_ev]
    simp [evsOf]
  · refine ⟨⟨[], [], true, false, fs.map evOf⟩, ?_, rfl, rfl⟩
    have hrun := runAll (fs.map evOf) []
    simpa [initState] using hrun

/-- Witness for `c1_delivery` at a concrete one-frame stream. -/
theorem c1_delivery_witness :
    (∀ s, Reaches (initState (msgsOf (loop false false
        (renderFrames [(strL "put", strL "3")]) [] [] [] 0))) s →
      s.delivered <+: [(strL "put", strL "3")].map evOf) ∧
    (∃ s, Reaches (initState (msgsOf (loop false false
        (renderFrames [(strL "put", strL "3")]) [] [] [] 0))) s ∧
      s.delivered = [(strL "put", strL "3")].map evOf ∧ s.closed = true) :=
  c1_delivery false false [(strL "put", strL "3")] (by decide)

/-- C3, failing execution.  `Close()` closes the HTTP body, the read of the producer
fails and it signals `s.closing`; if a decoded event is still buffered,
the dispatch loop closes `s.events`, but the `break` of the closing case only
leaves the `select`, so the loop iterates again with `pending` non-empty,
re-arms the send case on the now-closed channel, and the Go runtime panics
(`send on closed channel`): the `crashed` state below is reachable.  The
claimed "the call is safe (no panic)" is the intended behaviour (the pattern
this code cites uses `return` here); the `break` is the bug. -/
theorem c3_close_panic :
    ∃ s, Reaches (initState (msgsOf (loop false false
        (renderFrames [(strL "put", strL "2")]) [] [] [] 0))) s ∧
      s.crashed = true ∧ s.closed = true ∧ s.delivered = [] := by
  have hmsgs : msgsOf (loop false false
      (renderFrames [(strL "put", strL "2")]) [] [] [] 0) =
      [Msg.ev ⟨strL "put", none, strL "2"⟩, Msg.closing] := by decide
  refine ⟨⟨[], [⟨strL "put", none, strL "2"⟩], true, true, []⟩, ?_, rfl, rfl, rfl⟩
  rw [initState, hmsgs]
  exact Relation.ReflTransGen.head (DStep.recvEv _ _ [] false [])
    (Relation.ReflTransGen.head (DStep.recvClosing _ _ false [])
      (Relation.ReflTransGen.single (DStep.deliverClosed [] _ [] [])))

/-- C4, counterexample.  The frame `event:a / data:b / c` followed by a blank
line has three non-blank lines, which violates the two-line structure, yet the
decoder emits its decoded event with a nil error and no error event at all:
`lineCount` saturates at 2, the extra line is silently ignored, and the frame
is decoded from its first two lines.  This refutes "exactly one Event whose
error is non-null" for this violation. -/
theorem c4_counterexample :
    loop false false [strL "event:a", strL "data:b", strL "c", []] [] [] [] 0 =
      [.emit ⟨strL "a", none, strL "b"⟩, .signalClosing] ∧
    (∀ e ∈ emitsOf (loop false false
        [strL "event:a", strL "data:b", strL "c", []] [] [] [] 0), e.err = none) ∧
    List.filter (fun e => e.err != none)
      (emitsOf (loop false false
        [strL "event:a", strL "data:b", strL "c", []] [] [] [] 0)) = [] := by
  refine ⟨by decide, by decide, by decide⟩

/-- All non-blank lines of a frame beyond the second are silently skipped. -/
theorem loop_skip_all (a k : Bool) (extras tail : List Str)
    (os : List ReconnectOutcome) (p0 p1 : Str)
    (hx : ∀ l ∈ extras, goTrim l ≠ []) :
    loop a k (extras ++ tail) os p0 p1 2 = loop a k tail os p0 p1 2 := by
  induction extras with
  | nil => rfl
  | cons l ex ih =>
    rw [List.cons_append, loop_skip a k l _ os p0 p1 2 (hx l (by simp)) (by omega)]
    exact ih fun l hl => hx l (by simp [hl])

/-- C4 (amended).  A frame with fewer than two non-blank lines before its
blank line yields exactly one `Badly formated body` error event; a two-line
frame with a wrong `event:` or `data:` mark yields exactly one corresponding
error event; but a frame with more than two non-blank lines is *not* an
error: lines beyond the second are ignored and the frame decodes exactly as
the frame of its first two lines.  In every case decoding continues, and
subsequent well-formed frames are still decoded and delivered. -/
theorem c4_frame_errors (a k : Bool) (l0 l1 : Str) (extras rest : List Str)
    (os : List ReconnectOutcome) (p0 p1 : Str) :
    (loop a k ([] :: rest) os p0 p1 0 =
      .emit errBadBody :: loop a k rest os p0 p1 0) ∧
    (goTrim l0 ≠ [] →
      loop a k (l0 :: [] :: rest) os p0 p1 0 =
        .emit errBadBody :: loop a k rest os (goTrim l0) p1 0) ∧
    (goTrim l0 ≠ [] → goTrim l1 ≠ [] →
      startsWith (goTrim l0) (strL "event:") = false →
      loop a k (l0 :: l1 :: [] :: rest) os p0 p1 0 =
        .emit errFirstLine :: loop a k rest os (goTrim l0) (goTrim l1) 0) ∧
    (goTrim l0 ≠ [] → goTrim l1 ≠ [] →
      startsWith (goTrim l0) (strL "event:") = true →
      startsWith (goTrim l1) (strL "data:") = false →
      loop a k (l0 :: l1 :: [] :: rest) os p0 p1 0 =
        .emit errSecondLine :: loop a k rest os (goTrim l0) (goTrim l1) 0) ∧
    (goTrim l0 ≠ [] → goTrim l1 ≠ [] → (∀ l ∈ extras, goTrim l ≠ []) →
      loop a k (l0 :: l1 :: (extras ++ [] :: rest)) os p0 p1 0 =
        loop a k (l0 :: l1 :: [] :: rest) os p0 p1 0) ∧
    (∀ fs, (∀ f ∈ fs, WFFrame f ∧ NonControl f) →
      loop a k ([] :: renderFrames fs) [] p0 p1 0 =
        .emit errBadBody ::
          ((fs.map fun f => Action.emit (evOf f)) ++ [.signalClosing])) := by
  refine ⟨?_, ?_, ?_, ?_, ?_, ?_⟩
  · exact loop_badBody a k [] rest os p0 p1 0 rfl (by omega)
  · intro h0
    rw [loop_store0 a k l0 _ os p0 p1 h0]
    exact loop_badBody a k [] rest os _ p1 1 rfl (by omega)
  · intro h0 h1 hp
    rw [loop_store0 a k l0 _ os p0 p1 h0, loop_store1 a k l1 _ os _ p1 h1]
    exact loop_err1 a k [] rest os _ _ rfl hp
  · intro h0 h1 hp0 hp1
    rw [loop_store0 a k l0 _ os p0 p1 h0, loop_store1 a k l1 _ os _ p1 h1]
    exact loop_err2 a k [] rest os _ _ rfl hp0 hp1
  · intro h0 h1 hx
    rw [loop_store0 a k l0 _ os p0 p1 h0, loop_store1 a k l1 _ os _ p1 h1,
      loop_store0 a k l0 _ os p0 p1 h0, loop_store1 a k l1 _ os _ p1 h1]
    exact loop_skip_all a k extras ([] :: rest) os _ _ hx
  · intro fs hfs
    rw [loop_badBody a k [] _ [] p0 p1 0 rfl (by omega),
      loop_frames_closed a k fs hfs p0 p1]

/-- Witness for `c4_frame_errors`: the one-line frame `oops` and a two-line
frame with a wrong first mark, at concrete inputs. -/
theorem c4_frame_errors_witness :
    (loop false false [strL "oops", []] [] [] [] 0 =
      .emit errBadBody :: loop false false [] [] (goTrim (strL "oops")) [] 0) ∧
    (loop false false [strL "xevent:a", strL "data:b", []] [] [] [] 0 =
      .emit errFirstLine ::
        loop false false [] [] (goTrim (strL "xevent:a")) (goTrim (strL "data:b")) 0) :=
  ⟨(c4_frame_errors false false (strL "oops") [] [] [] [] [] []).2.1 (by decide),
   (c4_frame_errors false false (strL "xevent:a") (strL "data:b") [] [] [] [] []).2.2.1
     (by decide) (by decide) (by decide)⟩

theorem emitsOf_emits (fs : List (Str × Str)) :
    emitsOf (fs.map fun f => Action.emit (evOf f)) = fs.map evOf := by
  induction fs with
  | nil => rfl
  | cons f fs ih => simp [emitsOf, ih]

/-- C2.  A stream of well-formed non-control frames, then an `auth_revoked`
frame whose renewal and re-open succeed (outcome `reopened`), with the new
transport carrying further well-formed frames.  The producer trace is exactly:
the pre-reconnect events, then `Renew`, then `s.reader.Close()` strictly
before `openStream()`, then the post-reconnect events — so the `auth_revoked`
event is never forwarded, the old transport is closed before the new one is
read, every decoded event is forwarded exactly once (no duplicate, no gap),
post-reconnect events all come after pre-reconnect ones, and every delivered
sequence is a prefix of that order. -/
theorem c2_reconnect (k : Bool) (pre post : List (Str × Str)) (dt : Str)
    (junk : List Str)
    (hpre : ∀ f ∈ pre, WFFrame f ∧ NonControl f)
    (hpost : ∀ f ∈ post, WFFrame f ∧ NonControl f)
    (hdt : goTrim dt = dt) :
    loop true k (renderFrames pre ++ (renderFrame arStr dt ++ junk))
        [.reopened (renderFrames post)] [] [] 0 =
      (pre.map fun f => Action.emit (evOf f)) ++
        .renewCall :: .closeOld :: .openNew ::
          ((post.map fun f => Action.emit (evOf f)) ++ [.signalClosing]) ∧
    emitsOf (loop true k (renderFrames pre ++ (renderFrame arStr dt ++ junk))
        [.reopened (renderFrames post)] [] [] 0) =
      pre.map evOf ++ post.map evOf ∧
    (∀ e ∈ emitsOf (loop true k (renderFrames pre ++ (renderFrame arStr dt ++ junk))
        [.reopened (renderFrames post)] [] [] 0), e.type ≠ arStr) ∧
    (∀ s, Reaches (initState (msgsOf (loop true k
        (renderFrames pre ++ (renderFrame arStr dt ++ junk))
        [.reopened (renderFrames post)] [] [] 0))) s →
      s.delivered <+: pre.map evOf ++ post.map evOf) := by
  obtain ⟨q0, q1, hq⟩ := loop_frames true k pre (renderFrame arStr dt ++ junk)
    [.reopened (renderFrames post)] [] [] hpre
  rw [loop_frame_ar_reopened k dt junk (renderFrames post) [] q0 q1 hdt] at hq
  rw [loop_frames_closed true k post hpost _ _] at hq
  have h2 : emitsOf (loop true k (renderFrames pre ++ (renderFrame arStr dt ++ junk))
      [.reopened (renderFrames post)] [] [] 0) = pre.map evOf ++ post.map evOf := by
    rw [hq, emitsOf_append, emitsOf_emits]
    simp only [emitsOf, emitsOf_append, emitsOf_emits]
    simp
  refine ⟨hq, h2, ?_, ?_⟩
  · intro e he
    rw [h2] at he
    rcases List.mem_append.mp he with he | he
    · obtain ⟨f, hf, rfl⟩ := List.mem_map.mp he
      exact (hpre f hf).2.2
    · obtain ⟨f, hf, rfl⟩ := List.mem_map.mp he
      exact (hpost f hf).2.2
  · intro s hs
    refine delivered_prefix hs ?_
    show [] ++ [] ++ evsOf (msgsOf _) = _
    rw [evsOf_msgsOf, h2]
    rfl

/-- Witness for `c2_reconnect` at a concrete input: one `put` frame, an
`auth_revoked` frame with data `null`, a discarded line on the old transport,
and one `patch` frame on the new transport. -/
theorem c2_reconnect_witness :
    loop true false
        (renderFrames [(strL "put", strL "1")] ++ (renderFrame arStr (strL "null") ++
          [strL "zzz"]))
        [.reopened (renderFrames [(strL "patch", strL "2")])] [] [] 0 =
      ([(strL "put", strL "1")].map fun f => Action.emit (evOf f)) ++
        .renewCall :: .closeOld :: .openNew ::
          (([(strL "patch", strL "2")].map fun f => Action.emit (evOf f)) ++
            [.signalClosing]) :=
  (c2_reconnect false [(strL "put", strL "1")] [(strL "patch", strL "2")]
    (strL "null") [strL "zzz"] (by decide) (by decide) (by decide)).1

/-- C5.  An `auth_revoked` frame whose renewal fails: the producer calls
`Renew`, forwards exactly one event — of kind `auth_revoked`, carrying the
renewal error — and performs no transport close or re-open for that frame. -/
theorem c5_renew_fail (k : Bool) (dt e : Str) (rest : List Str)
    (os : List ReconnectOutcome) (p0 p1 : Str) (hd : goTrim dt = dt) :
    loop true k (renderFrame arStr dt ++ rest) (.renewFail e :: os) p0 p1 0 =
      [Action.renewCall, Action.emit ⟨arStr, some e, dt⟩] ++
        loop true k rest os (strL "event:" ++ arStr) (strL "data:" ++ dt) 0 ∧
    emitsOf [Action.renewCall, Action.emit ⟨arStr, some e, dt⟩] =
      [⟨arStr, some e, dt⟩] ∧
    Action.closeOld ∉ [Action.renewCall, Action.emit ⟨arStr, some e, dt⟩] ∧
    Action.openNew ∉ [Action.renewCall, Action.emit ⟨arStr, some e, dt⟩] := by
  refine ⟨?_, by simp [emitsOf], by simp, by simp⟩
  rw [loop_frame_ar_renewFail k dt e rest os p0 p1 hd]
  rfl

/-- Witness for `c5_renew_fail` at a concrete input. -/
theorem c5_renew_fail_witness :
    loop true false (renderFrame arStr (strL "null") ++ [])
        (.renewFail (strL "boom") :: []) [] [] 0 =
      [Action.renewCall, Action.emit ⟨arStr, some (strL "boom"), strL "null"⟩] ++
        loop true false [] [] (strL "event:" ++ arStr) (strL "data:" ++ strL "null") 0 :=
  (c5_renew_fail false (strL "null") (strL "boom") [] [] [] [] (by decide)).1

/-- C6.  A `keep-alive` frame: the producer writes `s.LastKeepAlive`
unconditionally (the `updateKA` action is always in the frame's segment), and
the keep-alive event is forwarded to the consumer pipeline if and only if the
`passKeepAlive` flag of the Reference is set. -/
theorem c6_keepalive (a k : Bool) (dt : Str) (rest : List Str)
    (os : List ReconnectOutcome) (p0 p1 : Str) (hd : goTrim dt = dt) :
    loop a k (renderFrame kaStr dt ++ rest) os p0 p1 0 =
      (Action.updateKA :: (if k then [.emit ⟨kaStr, none, dt⟩] else [])) ++
        loop a k rest os (strL "event:" ++ kaStr) (strL "data:" ++ dt) 0 ∧
    Action.updateKA ∈
      (Action.updateKA :: (if k then [.emit ⟨kaStr, none, dt⟩] else [])) ∧
    (Action.emit ⟨kaStr, none, dt⟩ ∈
      (Action.updateKA :: (if k then [.emit ⟨kaStr, none, dt⟩] else [])) ↔
        k = true) := by
  refine ⟨?_, by simp, ?_⟩
  · rw [loop_frame_ka a k dt rest os p0 p1 hd]
  · cases k <;> simp

/-- Witness for `c6_keepalive` with pass-through enabled. -/
theorem c6_keepalive_witness :
    loop false true (renderFrame kaStr (strL "null") ++ []) [] [] [] 0 =
      (Action.updateKA ::
        (if true then [.emit ⟨kaStr, none, strL "null"⟩] else [])) ++
        loop false true [] [] (strL "event:" ++ kaStr) (strL "data:" ++ strL "null") 0 :=
  (c6_keepalive false true (strL "null") [] [] [] [] (by decide)).1

/-- C7.  Every `auth_revoked` frame (with an authenticator set) triggers
exactly one `Renew` call: the frame's action segment starts with `renewCall`,
`renewCall` occurs nowhere else in the segment, and any reconnect actions
(`closeOld`, `openNew`) come strictly after it. -/
theorem c7_renew_once (k : Bool) (o : ReconnectOutcome) (dt : Str)
    (rest : List Str) (os : List ReconnectOutcome) (p0 p1 : Str)
    (hd : goTrim dt = dt) :
    loop true k (renderFrame arStr dt ++ rest) (o :: os) p0 p1 0 =
      (Action.renewCall :: authSegment o dt) ++
        loop true k (authCont o rest) os
          (strL "event:" ++ arStr) (strL "data:" ++ dt) 0 ∧
    Action.renewCall ∉ authSegment o dt := by
  cases o with
  | renewFail e =>
    exact ⟨by rw [loop_frame_ar_renewFail k dt e rest os p0 p1 hd]; rfl,
      by simp [authSegment]⟩
  | reopenFail e =>
    exact ⟨by rw [loop_frame_ar_reopenFail k dt e rest os p0 p1 hd]; rfl,
      by simp [authSegment]⟩
  | reopened nl =>
    exact ⟨by rw [loop_frame_ar_reopened k dt rest nl os p0 p1 hd]; rfl,
      by simp [authSegment]⟩

/-- Witness for `c7_renew_once` at a concrete reconnect outcome. -/
theorem c7_renew_once_witness :
    loop true false (renderFrame arStr (strL "null") ++ [])
        (.reopened [] :: []) [] [] 0 =
      (Action.renewCall :: authSegment (.reopened []) (strL "null")) ++
        loop true false (authCont (.reopened []) []) []
          (strL "event:" ++ arStr) (strL "data:" ++ strL "null") 0 ∧
    Action.renewCall ∉ authSegment (.reopened ([] : List Str)) (strL "null") :=
  c7_renew_once false (.reopened []) (strL "null") [] [] [] [] (by decide)

/-- C8.  In every dispatch iteration: delivery happens only when `pending` is
non-empty (the `events` variable is non-nil exactly then), a delivery removes
and hands over the head of `pending`, and from a state with an empty buffer
the only possible steps consume a message from the producer or the
cancellation signal. -/
theorem c8_dispatch (s t : DState) (h : DStep s t) :
    (t.delivered ≠ s.delivered →
      ∃ e rest, s.pending = e :: rest ∧ t.delivered = s.delivered ++ [e] ∧
        t.pending = rest ∧ s.closed = false) ∧
    (s.pending = [] →
      t.delivered = s.delivered ∧ ∃ m ms, s.input = m :: ms ∧ t.input = ms) := by
  cases h with
  | recvEv e rest pnd cl dl =>
    exact ⟨fun hne => absurd rfl hne, fun _ => ⟨rfl, ⟨.ev e, rest, rfl, rfl⟩⟩⟩
  | recvClosing rest pnd cl dl =>
    exact ⟨fun hne => absurd rfl hne, fun _ => ⟨rfl, ⟨.closing, rest, rfl, rfl⟩⟩⟩
  | deliver inp e rest dl =>
    exact ⟨fun _ => ⟨e, rest, rfl, rfl, rfl, rfl⟩, fun hp => by simp at hp⟩
  | deliverClosed inp e rest dl =>
    exact ⟨fun hne => absurd rfl hne, fun hp => by simp at hp⟩

/-- Witness for `c8_dispatch` at a concrete delivery step. -/
theorem c8_dispatch_witness :
    ∃ e rest, ([⟨[], none, []⟩] : List Event) = e :: rest ∧
      (([] : List Event) ++ [⟨[], none, []⟩]) = [] ++ [e] ∧
      ([] : List Event) = rest ∧ (false : Bool) = false :=
  (c8_dispatch ⟨[], [⟨[], none, []⟩], false, false, []⟩
    ⟨[], [], false, false, [] ++ [⟨[], none, []⟩]⟩
    (DStep.deliver [] ⟨[], none, []⟩ [] [])).1 (by simp)

/-- C9.  End of input on the transport (read error or close) makes the
producer terminate with a final `s.closing` send; every execution of the
dispatch loop that can no longer step has closed the events channel; and once
the channel is closed no further event is ever delivered to the consumer. -/
theorem c9_transport_failure (a k : Bool) (lines : List Str)
    (os : List ReconnectOutcome) (p0 p1 : Str) (lc : Nat) :
    (∃ body, loop a k lines os p0 p1 lc = body ++ [Action.signalClosing] ∧
      Action.signalClosing ∉ body) ∧
    (∀ s, Reaches (initState (msgsOf (loop a k lines os p0 p1 lc))) s →
      (∀ t, ¬ DStep s t) → s.closed = true) ∧
    (∀ s t, Reaches (initState (msgsOf (loop a k lines os p0 p1 lc))) s →
      s.closed = true → Reaches s t → t.delivered = s.delivered) := by
  have h1 := loop_closing a k (needFuel lines os) lines os p0 p1 lc le_rfl
  refine ⟨h1, ?_, ?_⟩
  · intro s hs hterm
    have hcl0 : HasClosing (initState (msgsOf (loop a k lines os p0 p1 lc))) := by
      obtain ⟨body, hbd, _⟩ := h1
      right
      rw [hbd, msgsOf_append]
      simp [initState, msgsOf]
    have hcl := Reaches_hasClosing hs hcl0
    cases hcr : s.crashed with
    | true => exact reachable_crashed_closed hs hcr
    | false => exact terminal_closed s hcl hcr hterm
  · intro s t hs hcl hst
    exact (Reaches_closed_frozen hst hcl).2

/-- Witness for `c9_transport_failure` at an immediately failing transport. -/
theorem c9_transport_failure_witness :
    ∃ body, loop false false [] [] [] [] 0 = body ++ [Action.signalClosing] ∧
      Action.signalClosing ∉ body :=
  (c9_transport_failure false false [] [] [] [] 0).1

/-- C10.  The static `Secret` authenticator's `Renew` always returns the
error `Can't renew a static token`; consequently, in a run whose renewal
outcomes are all this failure (one per possible `auth_revoked` frame — the
supply `List.replicate lines.length` can never be exhausted since each frame
consumes at least one line), each `auth_revoked` frame forwards exactly one
`auth_revoked` event carrying that error, and the producer never closes or
re-opens a transport. -/
theorem c10_secret (sec : Secret) (k : Bool) (msg : Str)
    (hmsg : Secret.Renew sec = some msg)
    (lines : List Str) (dt : Str) (rest : List Str) (os : List ReconnectOutcome)
    (p0 p1 : Str) (lc : Nat) (hd : goTrim dt = dt) :
    msg = strL "Can't renew a static token" ∧
    (loop true k (renderFrame arStr dt ++ rest) (.renewFail msg :: os) p0 p1 0 =
      .renewCall :: .emit ⟨arStr, some msg, dt⟩ ::
        loop true k rest os (strL "event:" ++ arStr) (strL "data:" ++ dt) 0) ∧
    (∀ x ∈ loop true k lines (List.replicate lines.length (.renewFail msg)) p0 p1 lc,
      x ≠ .closeOld ∧ x ≠ .openNew ∧
        ∀ e, x = .emit e → e.type = arStr → e.err = some msg) := by
  have hm : msg = strL "Can't renew a static token" := by
    rw [Secret.Renew] at hmsg
    exact (Option.some.inj hmsg).symm
  refine ⟨hm, loop_frame_ar_renewFail k dt msg rest os p0 p1 hd, ?_⟩
  intro x hx
  refine loop_allRenewFail k msg
    (needFuel lines (List.replicate lines.length (.renewFail msg)))
    lines _ p0 p1 lc le_rfl ?_ ?_ x hx
  · intro o ho
    exact List.eq_of_mem_replicate ho
  · simp

/-- Witness for `c10_secret` at a concrete secret and `auth_revoked` frame. -/
theorem c10_secret_witness :
    loop true false (renderFrame arStr (strL "null") ++ [])
        (.renewFail (strL "Can't renew a static token") :: []) [] [] 0 =
      .renewCall ::
        .emit ⟨arStr, some (strL "Can't renew a static token"), strL "null"⟩ ::
          loop true false [] []
            (strL "event:" ++ arStr) (strL "data:" ++ strL "null") 0 :=
  (c10_secret ⟨strL "s3cr3t"⟩ false (strL "Can't renew a static token")
    (by decide) [] (strL "null") [] [] [] [] 0 (by decide)).2.1

end Firebasedb
